import Mathlib

/-!
Verification of the reconciliation and retry core of the Portnox
configuration-management plugin (`terraform-provider-portnox`).

The Go source is shallowly embedded: pure fragments become Lean functions,
the HTTP executor becomes an oracle `exec : Nat → Except String α` giving each
attempt's outcome, Go's `rand.Intn(1000)` jitter becomes an oracle
`jitterMs : Nat → Nat` applied modulo 1000, and JSON `interface{}` values
become the inductive `Jv`.  Go type assertions `x.(T)` without an `ok` check
are modelled as `Option`-valued projections whose `none` case is a panic.
-/

namespace Portnox

/-- Substring containment on strings, embedding Go `strings.Contains`
(used by `MakeRequestWithRetry` to detect 429 responses and by
`IsNotFoundError` to detect 404/400). -/
def listIsPrefixOf : List Char → List Char → Bool
  | [], _ => true
  | _ :: _, [] => false
  | a :: as, b :: bs => a = b && listIsPrefixOf as bs

/-- Helper for `strContains`: does `pat` occur in the character list? -/
def listContainsSub (pat : List Char) : List Char → Bool
  | [] => listIsPrefixOf pat []
  | c :: cs => listIsPrefixOf pat (c :: cs) || listContainsSub pat cs

/-- Go `strings.Contains s pat`. -/
def strContains (s pat : String) : Bool :=
  listContainsSub pat.data s.data

/-- JSON values as produced by Go `json.Unmarshal` into `interface{}`:
objects are `map[string]interface{}` (modelled as association lists in
insertion order), arrays are `[]interface{}`, and `jnull` is the nil
interface. -/
inductive Jv where
  | jnull
  | jbool (b : Bool)
  | jnum (n : Int)
  | jstr (s : String)
  | jarr (xs : List Jv)
  | jobj (fields : List (String × Jv))

/-- Go map indexing `m["k"]` on an unmarshalled JSON object: the value when
the key is present, the nil interface otherwise. -/
def jget (fields : List (String × Jv)) (k : String) : Jv :=
  match fields.lookup k with
  | some v => v
  | none => Jv.jnull

/-- Go type assertion `x.(string)` (two-valued form). -/
def asString : Jv → Option String
  | Jv.jstr s => some s
  | _ => none

/-- Go type assertion `x.([]interface\x7b\x7d)` (two-valued form). -/
def asArr : Jv → Option (List Jv)
  | Jv.jarr xs => some xs
  | _ => none

/-- Go type assertion `x.(map[string]interface\x7b\x7d)` (two-valued form). -/
def asObj : Jv → Option (List (String × Jv))
  | Jv.jobj fields => some fields
  | _ => none

/-- Go `x == nil` on an `interface\x7b\x7d` holding unmarshalled JSON. -/
def isNull : Jv → Bool
  | Jv.jnull => true
  | _ => false

/-! ## HTTP Request Executor (`common/config.go`, `MakeRequest`) -/

/-- Embeds the outcome classification of `Config.MakeRequest`
(`common/config.go` lines 105-109): a status `>= 400` yields
`(nil, fmt.Errorf("API request failed with status: %s", resp.Status))` —
note that the response body bytes are discarded on failure — while a status
below 400 yields the body and a nil error.  `body` is the decoded JSON body
the remote sent. -/
def MakeRequest (status : Nat) (statusLine : String) (body : Jv) : Except String Jv :=
  if 400 ≤ status then
    Except.error ("API request failed with status: " ++ statusLine)
  else
    Except.ok body

/-! ## Retry Controller (`common/config.go`, `MakeRequestWithRetry`) -/

/-- The observable outcome of `MakeRequestWithRetry`: how many times the
executor (`MakeRequest`) was invoked, the sleeps performed (each recorded as
the backoff in whole seconds paired with the applied jitter in
milliseconds), and the final `([]byte, error)` pair returned to the caller
(`none` models Go `nil`). -/
structure RetryResult (α : Type) where
  calls : Nat
  sleeps : List (Nat × Nat)
  response : Option α
  error : Option String
deriving Repr

/-- The loop body of `MakeRequestWithRetry` (`common/config.go` lines
149-186), recursing on the number of loop iterations left
(`c.Retries - attempt + 1`).  On success the body and a nil error are
returned at once; on an error whose message contains "429" the loop sleeps
`backoff` seconds plus `rand.Intn(1000)` milliseconds of jitter, doubles
the backoff and retries; on any other error it breaks, returning the nil
body and that error.  Exhausting the loop returns the nil body of the last
failed call together with the last error. -/
def makeRequestWithRetryAux {α : Type} (exec : Nat → Except String α)
    (jitterMs : Nat → Nat) :
    Nat → Nat → Nat → Nat → List (Nat × Nat) → Option String → RetryResult α
  | 0, _, _, calls, sleeps, lastErr => ⟨calls, sleeps, none, lastErr⟩
  | remaining + 1, attempt, backoff, calls, sleeps, _ =>
    match exec attempt with
    | Except.ok body => ⟨calls + 1, sleeps, some body, none⟩
    | Except.error e =>
      if strContains e "429" then
        makeRequestWithRetryAux exec jitterMs remaining (attempt + 1) (backoff * 2)
          (calls + 1) (sleeps ++ [(backoff, jitterMs attempt % 1000)]) (some e)
      else
        ⟨calls + 1, sleeps, none, some e⟩

/-- Embeds `Config.MakeRequestWithRetry` (`common/config.go` lines 138-195).
`retries` is the Go `int` field `Retries` (negative values run the loop zero
times, hence `Int.toNat`), `retryInterval` the initial backoff in seconds,
`exec` the per-attempt outcome of `MakeRequest`, and `jitterMs` the random
source behind `rand.Intn(1000)`. -/
def MakeRequestWithRetry {α : Type} (retries : Int) (retryInterval : Nat)
    (exec : Nat → Except String α) (jitterMs : Nat → Nat) : RetryResult α :=
  makeRequestWithRetryAux exec jitterMs retries.toNat 1 retryInterval 0 [] none

/-! ## Account read (`resourceMacAccountRead`) -/

/-- The observable outcome of the error-handling prefix of
`resourceMacAccountRead`. -/
inductive AccountReadOutcome where
  | warningCleared
  | errored (msg : String)
  | okState
deriving DecidableEq, Repr

/-- Go `json.Unmarshal(bytes, &struct\x7bInternalErrorCode int\x7d)` on an
already-decoded JSON value: a non-object top level or a wrong-typed field is
an unmarshal error (`none`); a missing field leaves the zero value `0`. -/
def parseInternalErrorCode : Jv → Option Int
  | Jv.jobj fields =>
    match fields.lookup "InternalErrorCode" with
    | some (Jv.jnum n) => some n
    | some _ => none
    | none => some 0
  | _ => none

/-- Embeds the error-handling prefix of `resourceMacAccountRead`: on a nil
error, the read proceeds to populate state; on a non-nil error it unmarshals
the returned body bytes (Go `json.Unmarshal(nil, ...)` fails on a nil slice,
modelled by the `none` case) and returns the warning-and-clear-identity
diagnostic only when that parse succeeds with `InternalErrorCode = 5357`,
otherwise `diag.FromErr(err)`. -/
def resourceMacAccountRead (r : RetryResult Jv) : AccountReadOutcome :=
  match r.error with
  | none => AccountReadOutcome.okState
  | some e =>
    match r.response with
    | some j =>
      match parseInternalErrorCode j with
      | some code =>
        if code = 5357 then AccountReadOutcome.warningCleared
        else AccountReadOutcome.errored e
      | none => AccountReadOutcome.errored e
    | none => AccountReadOutcome.errored e

/-- A remote HTTP 400 response whose body carries `InternalErrorCode 5357`
("account not found"). -/
def body5357 : Jv :=
  Jv.jobj [("InternalErrorCode", Jv.jnum 5357),
           ("InternalError", Jv.jstr "Account not found")]

/-- An executor in which every attempt hits the 400/5357 response. -/
def exec400With5357 : Nat → Except String Jv :=
  fun _ => MakeRequest 400 "400 Bad Request" body5357

/-! ## Response Normalizer (`resource_mac_account_addresses.go`) -/

/-- Embeds the `MacWhiteList` shape dispatch shared by
`resourceMacAccountAddressesRead` (lines 216-232) and
`resourceMacAccountAddressesImport` (lines 517-533): a bare array is used
directly; an object is probed for an `_items` array; anything else — an
absent field included — falls back to the empty list, never to an error. -/
def extractMacWhiteList (agentlessOptions : List (String × Jv)) : List Jv :=
  match asArr (jget agentlessOptions "MacWhiteList") with
  | some xs => xs
  | none =>
    match asObj (jget agentlessOptions "MacWhiteList") with
    | some m =>
      match asArr (jget m "_items") with
      | some xs => xs
      | none => []
    | none => []

/-- A normalized whitelist entry as stored in Terraform state by the read
path: `mac_address`, `description`, and `expiration` (where `none` models the
nil value the code stores when `Expiration` is absent or empty). -/
structure ReadEntry where
  mac : String
  desc : String
  exp : Option String
deriving DecidableEq, Repr

/-- Outcome of processing one remote entry in a loop body that may `continue`
(skip) or hit an unchecked Go type assertion (panic). -/
inductive EntryStep (α : Type) where
  | panicked
  | skipped
  | got (a : α)
deriving DecidableEq, Repr

/-- Embeds the per-entry loop body of `resourceMacAccountAddressesRead`
(lines 246-265): a nil entry is skipped; `mac.(map[string]interface\x7b\x7d)`
and `macMap["Mac"].(string)` and `macMap["Description"].(string)` are
unchecked type assertions that panic when the value is absent or has another
type; entries whose `Mac` is not among the declared state macs are skipped;
`Expiration` uses the checked two-valued assertion and the empty string is
normalized to the nil value. -/
def readNormalizeEntry (stateMacs : List String) (j : Jv) : EntryStep ReadEntry :=
  if isNull j then EntryStep.skipped
  else
    match asObj j with
    | none => EntryStep.panicked
    | some m =>
      match asString (jget m "Mac") with
      | none => EntryStep.panicked
      | some mac =>
        if stateMacs.contains mac then
          match asString (jget m "Description") with
          | none => EntryStep.panicked
          | some d =>
            EntryStep.got
              ⟨mac, d,
                match asString (jget m "Expiration") with
                | some e => if e = "" then none else some e
                | none => none⟩
        else EntryStep.skipped

/-- Runs `readNormalizeEntry` over the remote whitelist, collecting the kept
entries in order; `none` models a Go panic aborting the whole read. -/
def processEntries (stateMacs : List String) : List Jv → Option (List ReadEntry)
  | [] => some []
  | j :: js =>
    match readNormalizeEntry stateMacs j with
    | EntryStep.panicked => none
    | EntryStep.skipped => processEntries stateMacs js
    | EntryStep.got e => (processEntries stateMacs js).map (e :: ·)

/-- The comparison closure of the read path's `sort.SliceStable`
(lines 268-273): by `mac_address`, then by `description`. -/
def entryLess (a b : ReadEntry) : Bool :=
  if a.mac = b.mac then decide (a.desc < b.desc) else decide (a.mac < b.mac)

/-- Stable insertion into an already-sorted list: the new element goes after
every existing element it does not strictly precede. -/
def insertStable {α : Type} (less : α → α → Bool) (x : α) : List α → List α
  | [] => [x]
  | y :: ys => if less x y then x :: y :: ys else y :: insertStable less x ys

/-- Stable sort (the semantics of Go `sort.SliceStable`). -/
def stableSort {α : Type} (less : α → α → Bool) (xs : List α) : List α :=
  xs.foldl (fun acc x => insertStable less x acc) []

/-- Go map assignment `m[k] = v`: replace the binding if the key is present,
add it otherwise (association list in insertion order). -/
def insertOrReplace {α : Type} (m : List (String × α)) (k : String) (v : α) :
    List (String × α) :=
  match m with
  | [] => [(k, v)]
  | (k0, v0) :: rest =>
    if k0 = k then (k, v) :: rest else (k0, v0) :: insertOrReplace rest k v

/-- Go map lookup `m[k]` (two-valued form). -/
def alLookup {α : Type} (m : List (String × α)) (k : String) : Option α :=
  match m with
  | [] => none
  | (k0, v) :: rest => if k0 = k then some v else alLookup rest k

/-- Go `delete(m, k)`. -/
def alErase {α : Type} (m : List (String × α)) (k : String) :
    List (String × α) :=
  match m with
  | [] => []
  | (k0, v) :: rest => if k0 = k then rest else (k0, v) :: alErase rest k

/-- The read path's `macAddressMap` construction (lines 275-278): a map from
`mac_address` to its entry, later bindings overwriting earlier ones. -/
def buildEntryMap (xs : List ReadEntry) : List (String × ReadEntry) :=
  xs.foldl (fun m e => insertOrReplace m e.mac e) []

/-- The declared-order pass of the read path (lines 284-291): walk
`originalMacOrder`, emit the mapped entry for each key found and delete it
from the map; returns the emitted entries and the remaining map. -/
def orderLoop (m : List (String × ReadEntry)) :
    List String → List ReadEntry × List (String × ReadEntry)
  | [] => ([], m)
  | k :: ks =>
    match alLookup m k with
    | some e =>
      let rest := orderLoop (alErase m k) ks
      (e :: rest.1, rest.2)
    | none => orderLoop m ks

/-- Embeds the state-reassembly pipeline of `resourceMacAccountAddressesRead`
(lines 161-304) after the remote whitelist has been extracted:
`originalMacOrder` and the `stateMacs` filter set are both derived from the
declared configuration's `mac_addresses` (both loops read the same
`d.GetOk("mac_addresses")`), each remote entry is normalized and filtered,
the survivors are stably sorted by (mac, description), keyed into a map, and
re-emitted in declared order with any leftover map entries appended
afterward; `none` models a panic inside the per-entry loop. -/
def readMacAddresses (declaredMacs : List String) (remote : List Jv) :
    Option (List ReadEntry) :=
  match processEntries declaredMacs remote with
  | none => none
  | some filtered =>
    let sorted := stableSort entryLess filtered
    let m := buildEntryMap sorted
    let r := orderLoop m declaredMacs
    some (r.1 ++ r.2.map Prod.snd)

/-- A normalized entry on the data-source read path, where a missing
expiration is stored as the empty string. -/
structure DsEntry where
  mac : String
  desc : String
  exp : String
deriving DecidableEq, Repr

/-- Embeds the per-entry loop body of `dataSourceMacAccountRead`
(lines 153-186): nil items and non-object items are skipped with checked
assertions, entries with an absent, non-string or empty `Mac` are skipped,
an absent or non-string `Description` yields the empty string, and an
absent, non-string or empty `Expiration` yields the empty string. -/
def dsNormalizeEntry (j : Jv) : Option DsEntry :=
  if isNull j then none
  else
    match asObj j with
    | none => none
    | some m =>
      match asString (jget m "Mac") with
      | none => none
      | some mac =>
        if mac = "" then none
        else
          some ⟨mac,
            (match asString (jget m "Description") with
             | some d => d
             | none => ""),
            (match asString (jget m "Expiration") with
             | some e => if e = "" then "" else e
             | none => "")⟩

/-! ## Update and delete reconciliation (`resource_mac_account_addresses.go`) -/

/-- One declared or previously-persisted `mac_addresses` element:
`mac_address`, `description`, and `expiration` (`none` models a nil map
value, the state the read path writes for an absent expiration). -/
structure CfgEntry where
  mac : String
  desc : String
  exp : Option String
deriving DecidableEq, Repr

/-- The body of one entry of a `MacWhiteList` remove payload: `Mac`,
optionally narrowed by `Description` or `Expiration`. -/
structure RemovePayload where
  mac : String
  desc : Option String
  exp : Option String
deriving DecidableEq, Repr

/-- Keyed map over config entries, as built by the update path's
`currentMacs`/`updatedMacs` loops (lines 320-335). -/
def buildCfgMap (entries : List CfgEntry) : List (String × CfgEntry) :=
  entries.foldl (fun m e => insertOrReplace m e.mac e) []

/-- The remove calls of the update path's first loop (lines 338-351): one
`\x7bMac\x7d` payload per key present previously but no longer declared. -/
def toRemoveRemovals (current updated : List (String × CfgEntry)) :
    List RemovePayload :=
  current.filterMap fun kv =>
    match alLookup updated kv.1 with
    | some _ => none
    | none => some ⟨kv.1, none, none⟩

/-- The remove calls of the update path's description loop (lines 353-371):
for every key in both sets whose description differs, a
`\x7bMac, Description: updatedMac["description"]\x7d` payload — the payload
carries the newly declared description. -/
def descChangeRemovals (current updated : List (String × CfgEntry)) :
    List RemovePayload :=
  current.filterMap fun kv =>
    match alLookup updated kv.1 with
    | some upd =>
      if kv.2.desc ≠ upd.desc then some ⟨kv.1, some upd.desc, none⟩ else none
    | none => none

/-- The expiration-change trigger of the update path (line 380): a change of
the presence flag, or a change of the value when both are present. -/
def expChangedTrigger (cur upd : CfgEntry) : Bool :=
  (cur.exp.isSome != upd.exp.isSome)
    || (cur.exp.isSome && upd.exp.isSome && (cur.exp.getD "" != upd.exp.getD ""))

/-- The `Expiration` field added to an expiration-change remove payload
(lines 391-393): present only when the updated expiration exists and is
non-empty — again the newly declared value. -/
def expPayloadValue : Option String → Option String
  | some e => if e = "" then none else some e
  | none => none

/-- The remove calls of the update path's expiration loop (lines 374-401). -/
def expChangeRemovals (current updated : List (String × CfgEntry)) :
    List RemovePayload :=
  current.filterMap fun kv =>
    match alLookup updated kv.1 with
    | some upd =>
      if expChangedTrigger kv.2 upd then
        some ⟨kv.1, none, expPayloadValue upd.exp⟩
      else none
    | none => none

/-- All remove payloads issued by `resourceMacAccountAddressesUpdate`
(lines 306-401) before the batched add call, in issue order: the
no-longer-declared keys, then the description changes, then the expiration
changes. -/
def updateRemovals (previous declared : List CfgEntry) : List RemovePayload :=
  let current := buildCfgMap previous
  let updated := buildCfgMap declared
  toRemoveRemovals current updated
    ++ descChangeRemovals current updated
    ++ expChangeRemovals current updated

/-- The observable outcome of `resourceMacAccountAddressesDelete`: the HTTP
remove requests issued (endpoint paired with the payload's `MacWhiteList`
entries), the identity written by `d.SetId` (`none` when untouched), and the
returned error. -/
structure DeleteOutcome where
  requests : List (String × List RemovePayload)
  newId : Option String
  error : Option String
deriving Repr

/-- Embeds `resourceMacAccountAddressesDelete` (lines 450-475): a single
payload is accumulated with one `\x7bMac\x7d` element per declared entry
(description and expiration are never copied), one remove request is issued
through the retry controller, and only on success is the identity cleared by
`d.SetId("")`. -/
def resourceMacAccountAddressesDelete (declared : List CfgEntry)
    (retries : Int) (interval : Nat) (exec : Nat → Except String Jv)
    (jitterMs : Nat → Nat) : DeleteOutcome :=
  let payload : List RemovePayload :=
    declared.foldl (fun acc e => acc ++ [⟨e.mac, none, none⟩]) []
  let r := MakeRequestWithRetry retries interval exec jitterMs
  match r.error with
  | some e =>
    ⟨[("/api/mac-based-accounts/mac-whitelist-remove", payload)], none, some e⟩
  | none =>
    ⟨[("/api/mac-based-accounts/mac-whitelist-remove", payload)], some "", none⟩

/-- Builds a remote whitelist entry `\x7b"Mac": mac, "Description": d\x7d`. -/
def mkRemoteEntry (mac d : String) : Jv :=
  Jv.jobj [("Mac", Jv.jstr mac), ("Description", Jv.jstr d)]

/-- Concrete executor for the C1 witness: three 429 failures, then success. -/
def c1ExecWitness : Nat → Except String Nat :=
  fun n =>
    if n ≤ 3 then Except.error "API request failed with status: 429 Too Many Requests"
    else Except.ok 42

/-- Whenever `MakeRequestWithRetry`'s loop ends with a non-nil error, the
returned response body is nil (Go `MakeRequest` returns a nil body on every
error path, and the loop only returns a body on success). -/
theorem makeRequestWithRetryAux_error_response_none {α : Type}
    (exec : Nat → Except String α) (jitterMs : Nat → Nat) :
    ∀ (remaining attempt backoff calls : Nat) (sleeps : List (Nat × Nat))
      (lastErr : Option String) (e : String),
      (makeRequestWithRetryAux exec jitterMs remaining attempt backoff calls sleeps lastErr).error
          = some e →
      (makeRequestWithRetryAux exec jitterMs remaining attempt backoff calls sleeps lastErr).response
          = none := by
  intro remaining
  induction remaining with
  | zero => intro attempt backoff calls sleeps lastErr e _; rfl
  | succ r ih =>
    intro attempt backoff calls sleeps lastErr e h
    simp only [makeRequestWithRetryAux] at h ⊢
    cases hx : exec attempt with
    | ok body =>
      rw [hx] at h
      simp at h
    | error msg =>
      rw [hx] at h
      by_cases h429 : strContains msg "429" = true
      · simp only [h429, if_true] at h ⊢
        exact ih _ _ _ _ _ e h
      · simp only [Bool.not_eq_true] at h429
        simp only [h429, Bool.false_eq_true, if_false] at h ⊢

/-- C1: with base interval 1 second and maximum attempts 5, an executor whose
first three invocations fail with errors indicating HTTP 429 and whose fourth
succeeds leads `MakeRequestWithRetry` to make exactly 4 executor calls, return
the successful response, sleep `1 * 2 ^ (n-1)` seconds (plus a jitter below
one second) before retry `n`, and thus sleep at least 1+2+4 = 7 cumulative
seconds excluding jitter. -/
theorem c1_retry_backoff_three_429_then_success {α : Type}
    (exec : Nat → Except String α) (jitterMs : Nat → Nat) (e1 e2 e3 : String)
    (b : α)
    (h1 : exec 1 = Except.error e1) (h2 : exec 2 = Except.error e2)
    (h3 : exec 3 = Except.error e3) (h4 : exec 4 = Except.ok b)
    (r1 : strContains e1 "429" = true) (r2 : strContains e2 "429" = true)
    (r3 : strContains e3 "429" = true) :
    (MakeRequestWithRetry 5 1 exec jitterMs).calls = 4
    ∧ (MakeRequestWithRetry 5 1 exec jitterMs).response = some b
    ∧ (MakeRequestWithRetry 5 1 exec jitterMs).error = none
    ∧ (MakeRequestWithRetry 5 1 exec jitterMs).sleeps.map Prod.fst
        = [1 * 2 ^ 0, 1 * 2 ^ 1, 1 * 2 ^ 2]
    ∧ 7 ≤ ((MakeRequestWithRetry 5 1 exec jitterMs).sleeps.map Prod.fst).sum
    ∧ ∀ s ∈ (MakeRequestWithRetry 5 1 exec jitterMs).sleeps, s.2 < 1000 := by
  have hred : MakeRequestWithRetry 5 1 exec jitterMs
      = ⟨4, [(1, jitterMs 1 % 1000), (2, jitterMs 2 % 1000), (4, jitterMs 3 % 1000)],
          some b, none⟩ := by
    simp [MakeRequestWithRetry, makeRequestWithRetryAux, h1, h2, h3, h4, r1, r2, r3]
  rw [hred]
  refine ⟨rfl, rfl, rfl, rfl, by norm_num, ?_⟩
  intro s hs
  simp only [List.mem_cons, List.not_mem_nil, or_false] at hs
  rcases hs with h | h | h <;> subst h <;> exact Nat.mod_lt _ (by norm_num)

/-- Witness for C1 at a concrete executor and zero jitter. -/
theorem c1_retry_backoff_witness :
    (MakeRequestWithRetry 5 1 c1ExecWitness (fun _ => 0)).calls = 4
    ∧ (MakeRequestWithRetry 5 1 c1ExecWitness (fun _ => 0)).response = some 42
    ∧ (MakeRequestWithRetry 5 1 c1ExecWitness (fun _ => 0)).error = none
    ∧ (MakeRequestWithRetry 5 1 c1ExecWitness (fun _ => 0)).sleeps.map Prod.fst
        = [1 * 2 ^ 0, 1 * 2 ^ 1, 1 * 2 ^ 2]
    ∧ 7 ≤ ((MakeRequestWithRetry 5 1 c1ExecWitness (fun _ => 0)).sleeps.map Prod.fst).sum
    ∧ ∀ s ∈ (MakeRequestWithRetry 5 1 c1ExecWitness (fun _ => 0)).sleeps, s.2 < 1000 :=
  c1_retry_backoff_three_429_then_success c1ExecWitness (fun _ => 0)
    "API request failed with status: 429 Too Many Requests"
    "API request failed with status: 429 Too Many Requests"
    "API request failed with status: 429 Too Many Requests" 42
    rfl rfl rfl rfl (by decide) (by decide) (by decide)

/-- C6: a first executor invocation failing with an error that does not
indicate HTTP 429 leads `MakeRequestWithRetry` to make exactly one executor
call, perform no retry sleep, and return that error unchanged (with a nil
response body). -/
theorem c6_non429_error_is_terminal {α : Type} (retries : Int) (interval : Nat)
    (exec : Nat → Except String α) (jitterMs : Nat → Nat) (e : String)
    (hret : 1 ≤ retries) (h1 : exec 1 = Except.error e)
    (h429 : strContains e "429" = false) :
    (MakeRequestWithRetry retries interval exec jitterMs).calls = 1
    ∧ (MakeRequestWithRetry retries interval exec jitterMs).sleeps = []
    ∧ (MakeRequestWithRetry retries interval exec jitterMs).error = some e
    ∧ (MakeRequestWithRetry retries interval exec jitterMs).response = none := by
  have htn : retries.toNat = (retries.toNat - 1) + 1 := by omega
  have hred : MakeRequestWithRetry retries interval exec jitterMs
      = ⟨1, [], none, some e⟩ := by
    rw [MakeRequestWithRetry, htn]
    simp [makeRequestWithRetryAux, h1, h429]
  rw [hred]
  exact ⟨rfl, rfl, rfl, rfl⟩

/-- Witness for C6 at a concrete executor failing with a 500-style error. -/
theorem c6_non429_error_witness :
    (MakeRequestWithRetry 3 1
        (fun _ => (Except.error "API request failed with status: 500 Internal Server Error" :
          Except String Nat)) (fun _ => 0)).calls = 1
    ∧ (MakeRequestWithRetry 3 1
        (fun _ => (Except.error "API request failed with status: 500 Internal Server Error" :
          Except String Nat)) (fun _ => 0)).sleeps = []
    ∧ (MakeRequestWithRetry 3 1
        (fun _ => (Except.error "API request failed with status: 500 Internal Server Error" :
          Except String Nat)) (fun _ => 0)).error
        = some "API request failed with status: 500 Internal Server Error"
    ∧ (MakeRequestWithRetry 3 1
        (fun _ => (Except.error "API request failed with status: 500 Internal Server Error" :
          Except String Nat)) (fun _ => 0)).response = none :=
  c6_non429_error_is_terminal 3 1 _ (fun _ => 0)
    "API request failed with status: 500 Internal Server Error"
    (by norm_num) rfl (by decide)

/-- C10: a zero or negative configured `Retries` makes `MakeRequestWithRetry`
skip the loop entirely: no executor call at all, and a nil response body
together with a nil error is returned, which the caller treats as success. -/
theorem c10_nonpositive_retries_no_call_nil_nil {α : Type} (retries : Int)
    (interval : Nat) (exec : Nat → Except String α) (jitterMs : Nat → Nat)
    (h : retries ≤ 0) :
    MakeRequestWithRetry retries interval exec jitterMs
      = ⟨0, [], none, none⟩ := by
  have htn : retries.toNat = 0 := by omega
  rw [MakeRequestWithRetry, htn]
  rfl

/-- Witness for C10 with `Retries = 0`. -/
theorem c10_nonpositive_retries_witness :
    MakeRequestWithRetry 0 1 (fun _ => (Except.ok 7 : Except String Nat)) (fun _ => 0)
      = ⟨0, [], none, none⟩ :=
  c10_nonpositive_retries_no_call_nil_nil 0 1 _ (fun _ => 0) (by norm_num)

/-- A successful first attempt makes the retry controller return at once:
one call, no sleep, the body, and a nil error. -/
theorem makeRequestWithRetry_first_ok {α : Type} (retries : Int)
    (interval : Nat) (exec : Nat → Except String α) (jitterMs : Nat → Nat)
    (b : α) (hret : 1 ≤ retries) (hok : exec 1 = Except.ok b) :
    MakeRequestWithRetry retries interval exec jitterMs = ⟨1, [], some b, none⟩ := by
  have htn : retries.toNat = (retries.toNat - 1) + 1 := by omega
  rw [MakeRequestWithRetry, htn]
  simp [makeRequestWithRetryAux, hok]

/-- A successful `alLookup` exhibits a binding of the association list. -/
theorem alLookup_mem {α : Type} :
    ∀ (m : List (String × α)) (k : String) (v : α),
      alLookup m k = some v → (k, v) ∈ m := by
  intro m
  induction m with
  | nil => intro k v h; simp [alLookup] at h
  | cons kv rest ih =>
    intro k v h
    obtain ⟨k0, v0⟩ := kv
    simp only [alLookup] at h
    by_cases hk : k0 = k
    · subst hk
      simp at h
      subst h
      exact List.mem_cons_self _ _
    · rw [if_neg hk] at h
      exact List.mem_cons_of_mem _ (ih k v h)

/-- C2 (code bug): an account read whose every attempt receives an HTTP 400
response carrying `InternalErrorCode 5357` returns the request error instead
of the claimed clear-identity-and-warn outcome — `MakeRequest` discards the
response body on any status `>= 400`, so `resourceMacAccountRead` always
unmarshals nil bytes and its 5357 branch is unreachable.  The second
conjunct confirms the response body did carry code 5357. -/
theorem c2_account_read_400_with_5357_returns_error :
    resourceMacAccountRead (MakeRequestWithRetry 3 1 exec400With5357 (fun _ => 0))
      = AccountReadOutcome.errored "API request failed with status: 400 Bad Request"
    ∧ parseInternalErrorCode body5357 = some 5357 :=
  ⟨rfl, rfl⟩

/-- C5: the normalizer yields the same entry list for a bare-array
`MacWhiteList` and for the `_items`-wrapped object shape, and yields the
empty list — not an error — when the field is absent or has another type. -/
theorem c5_normalizer_shape_tolerance (xs : List Jv)
    (fields : List (String × Jv))
    (habsent : fields.lookup "MacWhiteList" = none) :
    extractMacWhiteList [("MacWhiteList", Jv.jarr xs)]
      = extractMacWhiteList [("MacWhiteList", Jv.jobj [("_items", Jv.jarr xs)])]
    ∧ extractMacWhiteList [("MacWhiteList", Jv.jarr xs)] = xs
    ∧ extractMacWhiteList fields = []
    ∧ ∀ v, asArr v = none → asObj v = none →
        extractMacWhiteList [("MacWhiteList", v)] = [] := by
  refine ⟨rfl, rfl, ?_, ?_⟩
  · simp [extractMacWhiteList, jget, habsent, asArr, asObj]
  · intro v h1 h2
    simp [extractMacWhiteList, jget, h1, h2]

/-- Witness for C5 at a one-element whitelist and an empty response object. -/
theorem c5_normalizer_witness :
    extractMacWhiteList [("MacWhiteList", Jv.jarr [Jv.jnull])]
      = extractMacWhiteList
          [("MacWhiteList", Jv.jobj [("_items", Jv.jarr [Jv.jnull])])]
    ∧ extractMacWhiteList [("MacWhiteList", Jv.jarr [Jv.jnull])] = [Jv.jnull]
    ∧ extractMacWhiteList [] = []
    ∧ ∀ v, asArr v = none → asObj v = none →
        extractMacWhiteList [("MacWhiteList", v)] = [] :=
  c5_normalizer_shape_tolerance [Jv.jnull] [] rfl

/-- C9 (code bug): a remote entry with a `Mac` but no `Description` field
makes the read path's per-entry normalization panic (the unchecked
`macMap["Description"].(string)` assertion), aborting the whole read —
while the data-source path normalizes the very same entry to an
empty-string description, as the claim describes. -/
theorem c9_missing_description_read_panics :
    readMacAddresses ["AA:BB:CC:DD:EE:01"]
        [Jv.jobj [("Mac", Jv.jstr "AA:BB:CC:DD:EE:01")]] = none
    ∧ dsNormalizeEntry (Jv.jobj [("Mac", Jv.jstr "AA:BB:CC:DD:EE:01")])
        = some ⟨"AA:BB:CC:DD:EE:01", "", ""⟩ :=
  ⟨rfl, rfl⟩

/-- C3 counterexample: updating the description of `AA:BB:CC:DD:EE:01` from
"old" to "new" issues exactly one remove call, and its payload carries the
newly declared description "new" — no issued remove carries the old value,
contradicting the claim that the old description is used as the match key. -/
theorem c3_replace_remove_counterexample :
    updateRemovals [⟨"AA:BB:CC:DD:EE:01", "old", none⟩]
        [⟨"AA:BB:CC:DD:EE:01", "new", none⟩]
      = [⟨"AA:BB:CC:DD:EE:01", some "new", none⟩]
    ∧ (⟨"AA:BB:CC:DD:EE:01", some "old", none⟩ : RemovePayload)
        ∉ updateRemovals [⟨"AA:BB:CC:DD:EE:01", "old", none⟩]
            [⟨"AA:BB:CC:DD:EE:01", "new", none⟩] :=
  ⟨rfl, by decide⟩

/-- C3 amended: for every MAC key present in both the previous and declared
entry sets, when the description differs the remove call issued before the
subsequent add carries the newly declared description as the match key, and
when the expiration changed it carries the newly declared expiration (when
present and non-empty) — the old values are not used. -/
theorem c3_replace_remove_carries_new_value (previous declared : List CfgEntry)
    (mac : String) (cur upd : CfgEntry)
    (hc : alLookup (buildCfgMap previous) mac = some cur)
    (hu : alLookup (buildCfgMap declared) mac = some upd) :
    (cur.desc ≠ upd.desc →
      (⟨mac, some upd.desc, none⟩ : RemovePayload)
        ∈ updateRemovals previous declared)
    ∧ (expChangedTrigger cur upd = true →
      (⟨mac, none, expPayloadValue upd.exp⟩ : RemovePayload)
        ∈ updateRemovals previous declared) := by
  have hmem : (mac, cur) ∈ buildCfgMap previous := alLookup_mem _ _ _ hc
  constructor
  · intro hne
    have hdesc : (⟨mac, some upd.desc, none⟩ : RemovePayload)
        ∈ descChangeRemovals (buildCfgMap previous) (buildCfgMap declared) := by
      apply List.mem_filterMap.mpr
      refine ⟨(mac, cur), hmem, ?_⟩
      simp [hu, hne]
    simp only [updateRemovals]
    exact List.mem_append.mpr (Or.inl (List.mem_append.mpr (Or.inr hdesc)))
  · intro htrig
    have hexp : (⟨mac, none, expPayloadValue upd.exp⟩ : RemovePayload)
        ∈ expChangeRemovals (buildCfgMap previous) (buildCfgMap declared) := by
      apply List.mem_filterMap.mpr
      refine ⟨(mac, cur), hmem, ?_⟩
      simp [hu, htrig]
    simp only [updateRemovals]
    exact List.mem_append.mpr (Or.inr hexp)

/-- Witness for the amended C3 at the counterexample's concrete input. -/
theorem c3_replace_remove_witness :
    (⟨"AA:BB:CC:DD:EE:01", some "new", none⟩ : RemovePayload)
      ∈ updateRemovals [⟨"AA:BB:CC:DD:EE:01", "old", none⟩]
          [⟨"AA:BB:CC:DD:EE:01", "new", none⟩] :=
  (c3_replace_remove_carries_new_value
      [⟨"AA:BB:CC:DD:EE:01", "old", none⟩]
      [⟨"AA:BB:CC:DD:EE:01", "new", none⟩]
      "AA:BB:CC:DD:EE:01"
      ⟨"AA:BB:CC:DD:EE:01", "old", none⟩
      ⟨"AA:BB:CC:DD:EE:01", "new", none⟩
      rfl rfl).1 (by decide)

/-- C8 counterexample: deleting a collection of two declared entries issues
exactly one remove request — not one per entry as the claim states. -/
theorem c8_delete_call_count_counterexample :
    (resourceMacAccountAddressesDelete
        [⟨"AA:BB:CC:DD:EE:01", "a", none⟩, ⟨"AA:BB:CC:DD:EE:02", "b", none⟩]
        3 1 (fun _ => Except.ok Jv.jnull) (fun _ => 0)).requests.length = 1
    ∧ (1 : Nat) ≠ 2 :=
  ⟨rfl, by decide⟩

/-- Folding payload accumulation is a map. -/
theorem foldl_append_singleton {α β : Type} (f : α → β) :
    ∀ (xs : List α) (acc : List β),
      xs.foldl (fun acc e => acc ++ [f e]) acc = acc ++ xs.map f := by
  intro xs
  induction xs with
  | nil => intro acc; simp
  | cons x xs ih => intro acc; simp [ih]

/-- C8 amended: whole-collection deletion issues exactly one remove request,
whose single batched payload carries one `Mac`-only element per declared
entry (its `mac_address`, with description and expiration ignored), and on
success clears the local identity. -/
theorem c8_delete_one_batched_remove (declared : List CfgEntry)
    (retries : Int) (interval : Nat) (exec : Nat → Except String Jv)
    (jitterMs : Nat → Nat) (b : Jv)
    (hret : 1 ≤ retries) (hok : exec 1 = Except.ok b) :
    (resourceMacAccountAddressesDelete declared retries interval exec
        jitterMs).requests.length = 1
    ∧ (∀ req ∈ (resourceMacAccountAddressesDelete declared retries interval
          exec jitterMs).requests,
        req.1 = "/api/mac-based-accounts/mac-whitelist-remove"
        ∧ req.2.map (fun p => p.mac) = declared.map (fun e => e.mac)
        ∧ ∀ p ∈ req.2, p.desc = none ∧ p.exp = none)
    ∧ (resourceMacAccountAddressesDelete declared retries interval exec
        jitterMs).newId = some ""
    ∧ (resourceMacAccountAddressesDelete declared retries interval exec
        jitterMs).error = none := by
  have hpay : declared.foldl
      (fun acc e => acc ++ [(⟨e.mac, none, none⟩ : RemovePayload)]) []
      = declared.map (fun e => (⟨e.mac, none, none⟩ : RemovePayload)) := by
    have := foldl_append_singleton
      (fun e : CfgEntry => (⟨e.mac, none, none⟩ : RemovePayload)) declared []
    simpa using this
  have hres : resourceMacAccountAddressesDelete declared retries interval exec
      jitterMs
      = ⟨[("/api/mac-based-accounts/mac-whitelist-remove",
            declared.map (fun e => (⟨e.mac, none, none⟩ : RemovePayload)))],
          some "", none⟩ := by
    simp only [resourceMacAccountAddressesDelete,
      makeRequestWithRetry_first_ok retries interval exec jitterMs b hret hok,
      hpay]
  rw [hres]
  refine ⟨rfl, ?_, rfl, rfl⟩
  intro req hreq
  simp only [List.mem_cons, List.not_mem_nil, or_false] at hreq
  subst hreq
  refine ⟨rfl, ?_, ?_⟩
  · simp
  · intro p hp
    simp only [List.mem_map] at hp
    obtain ⟨e, _, rfl⟩ := hp
    exact ⟨rfl, rfl⟩

/-- Witness for the amended C8 with two declared entries and a succeeding
executor. -/
theorem c8_delete_one_batched_remove_witness :
    (resourceMacAccountAddressesDelete
        [⟨"AA:BB:CC:DD:EE:01", "a", none⟩, ⟨"AA:BB:CC:DD:EE:02", "b", none⟩]
        3 1 (fun _ => Except.ok Jv.jnull) (fun _ => 0)).requests.length = 1
    ∧ (∀ req ∈ (resourceMacAccountAddressesDelete
          [⟨"AA:BB:CC:DD:EE:01", "a", none⟩, ⟨"AA:BB:CC:DD:EE:02", "b", none⟩]
          3 1 (fun _ => Except.ok Jv.jnull) (fun _ => 0)).requests,
        req.1 = "/api/mac-based-accounts/mac-whitelist-remove"
        ∧ req.2.map (fun p => p.mac)
            = ([⟨"AA:BB:CC:DD:EE:01", "a", none⟩,
                ⟨"AA:BB:CC:DD:EE:02", "b", none⟩] : List CfgEntry).map
                (fun e => e.mac)
        ∧ ∀ p ∈ req.2, p.desc = none ∧ p.exp = none)
    ∧ (resourceMacAccountAddressesDelete
        [⟨"AA:BB:CC:DD:EE:01", "a", none⟩, ⟨"AA:BB:CC:DD:EE:02", "b", none⟩]
        3 1 (fun _ => Except.ok Jv.jnull) (fun _ => 0)).newId = some ""
    ∧ (resourceMacAccountAddressesDelete
        [⟨"AA:BB:CC:DD:EE:01", "a", none⟩, ⟨"AA:BB:CC:DD:EE:02", "b", none⟩]
        3 1 (fun _ => Except.ok Jv.jnull) (fun _ => 0)).error = none :=
  c8_delete_one_batched_remove
    [⟨"AA:BB:CC:DD:EE:01", "a", none⟩, ⟨"AA:BB:CC:DD:EE:02", "b", none⟩]
    3 1 (fun _ => Except.ok Jv.jnull) (fun _ => 0) Jv.jnull
    (by norm_num) rfl

/-- A kept entry of the read path's per-entry loop passed the `stateMacs`
filter. -/
theorem readNormalizeEntry_got_contains (stateMacs : List String) (j : Jv)
    (e : ReadEntry) (h : readNormalizeEntry stateMacs j = EntryStep.got e) :
    stateMacs.contains e.mac = true := by
  cases j with
  | jobj fields =>
    simp only [readNormalizeEntry, isNull, asObj, Bool.false_eq_true,
      if_false] at h
    cases hmac : asString (jget fields "Mac") with
    | none => rw [hmac] at h; simp at h
    | some mac =>
      simp only [hmac] at h
      by_cases hc : stateMacs.contains mac = true
      · rw [if_pos hc] at h
        cases hdesc : asString (jget fields "Description") with
        | none => rw [hdesc] at h; simp at h
        | some d =>
          rw [hdesc] at h
          simp only [EntryStep.got.injEq] at h
          subst h
          exact hc
      · rw [if_neg hc] at h
        simp at h
  | jnull => simp [readNormalizeEntry, isNull] at h
  | jbool b => simp [readNormalizeEntry, isNull, asObj] at h
  | jnum n => simp [readNormalizeEntry, isNull, asObj] at h
  | jstr s => simp [readNormalizeEntry, isNull, asObj] at h
  | jarr xs => simp [readNormalizeEntry, isNull, asObj] at h

/-- Every entry surviving `processEntries` passed the `stateMacs` filter. -/
theorem processEntries_mem (stateMacs : List String) :
    ∀ (remote : List Jv) (l : List ReadEntry) (e : ReadEntry),
      processEntries stateMacs remote = some l → e ∈ l →
      stateMacs.contains e.mac = true := by
  intro remote
  induction remote with
  | nil =>
    intro l e h hmem
    simp only [processEntries, Option.some.injEq] at h
    subst h
    simp at hmem
  | cons j js ih =>
    intro l e h hmem
    simp only [processEntries] at h
    cases hstep : readNormalizeEntry stateMacs j with
    | panicked => rw [hstep] at h; simp at h
    | skipped => rw [hstep] at h; exact ih l e h hmem
    | got e0 =>
      rw [hstep] at h
      cases hrec : processEntries stateMacs js with
      | none => rw [hrec] at h; simp at h
      | some l0 =>
        rw [hrec] at h
        simp only [Option.map_some', Option.some.injEq] at h
        subst h
        rcases List.mem_cons.mp hmem with h1 | h1
        · exact h1 ▸ readNormalizeEntry_got_contains stateMacs j e0 hstep
        · exact ih l0 e hrec h1

/-- Stable insertion adds no new elements. -/
theorem mem_insertStable {α : Type} (less : α → α → Bool) (x e : α) :
    ∀ xs : List α, e ∈ insertStable less x xs → e = x ∨ e ∈ xs := by
  intro xs
  induction xs with
  | nil =>
    intro h
    simp only [insertStable, List.mem_singleton] at h
    exact Or.inl h
  | cons y ys ih =>
    intro h
    simp only [insertStable] at h
    by_cases hl : less x y = true
    · rw [if_pos hl] at h
      rcases List.mem_cons.mp h with h1 | h1
      · exact Or.inl h1
      · exact Or.inr h1
    · rw [if_neg hl] at h
      rcases List.mem_cons.mp h with h1 | h1
      · exact Or.inr (h1 ▸ List.mem_cons_self _ _)
      · rcases ih h1 with h2 | h2
        · exact Or.inl h2
        · exact Or.inr (List.mem_cons_of_mem _ h2)

/-- The stable-sort fold adds no new elements. -/
theorem mem_stableSort_foldl {α : Type} (less : α → α → Bool) (e : α) :
    ∀ (xs acc : List α),
      e ∈ xs.foldl (fun acc x => insertStable less x acc) acc →
      e ∈ acc ∨ e ∈ xs := by
  intro xs
  induction xs with
  | nil => intro acc h; exact Or.inl h
  | cons x xs ih =>
    intro acc h
    simp only [List.foldl_cons] at h
    rcases ih (insertStable less x acc) h with h1 | h1
    · rcases mem_insertStable less x e acc h1 with h2 | h2
      · exact Or.inr (h2 ▸ List.mem_cons_self _ _)
      · exact Or.inl h2
    · exact Or.inr (List.mem_cons_of_mem _ h1)

/-- Elements of a stably sorted list come from the input. -/
theorem mem_stableSort {α : Type} (less : α → α → Bool) (e : α)
    (xs : List α) (h : e ∈ stableSort less xs) : e ∈ xs := by
  rcases mem_stableSort_foldl less e xs [] h with h1 | h1
  · simp at h1
  · exact h1

/-- Map insertion adds no binding beyond the inserted one. -/
theorem mem_insertOrReplace {α : Type} (k : String) (v : α)
    (kv : String × α) :
    ∀ m : List (String × α),
      kv ∈ insertOrReplace m k v → kv = (k, v) ∨ kv ∈ m := by
  intro m
  induction m with
  | nil =>
    intro h
    simp only [insertOrReplace, List.mem_singleton] at h
    exact Or.inl h
  | cons kv0 rest ih =>
    intro h
    obtain ⟨k0, v0⟩ := kv0
    simp only [insertOrReplace] at h
    by_cases hk : k0 = k
    · rw [if_pos hk] at h
      rcases List.mem_cons.mp h with h1 | h1
      · exact Or.inl h1
      · exact Or.inr (List.mem_cons_of_mem _ h1)
    · rw [if_neg hk] at h
      rcases List.mem_cons.mp h with h1 | h1
      · exact Or.inr (h1 ▸ List.mem_cons_self _ _)
      · rcases ih h1 with h2 | h2
        · exact Or.inl h2
        · exact Or.inr (List.mem_cons_of_mem _ h2)

/-- Values bound in the read path's keyed map come from the entry list. -/
theorem mem_buildEntryMap_foldl :
    ∀ (xs : List ReadEntry) (acc : List (String × ReadEntry))
      (kv : String × ReadEntry),
      kv ∈ xs.foldl (fun m e => insertOrReplace m e.mac e) acc →
      kv ∈ acc ∨ kv.2 ∈ xs := by
  intro xs
  induction xs with
  | nil => intro acc kv h; exact Or.inl h
  | cons x xs ih =>
    intro acc kv h
    simp only [List.foldl_cons] at h
    rcases ih (insertOrReplace acc x.mac x) kv h with h1 | h1
    · rcases mem_insertOrReplace x.mac x kv acc h1 with h2 | h2
      · exact Or.inr (by rw [h2]; exact List.mem_cons_self _ _)
      · exact Or.inl h2
    · exact Or.inr (List.mem_cons_of_mem _ h1)

/-- `alErase` removes bindings but adds none. -/
theorem mem_alErase {α : Type} (k : String) (kv : String × α) :
    ∀ m : List (String × α), kv ∈ alErase m k → kv ∈ m := by
  intro m
  induction m with
  | nil => intro h; simp [alErase] at h
  | cons kv0 rest ih =>
    intro h
    obtain ⟨k0, v0⟩ := kv0
    simp only [alErase] at h
    by_cases hk : k0 = k
    · rw [if_pos hk] at h
      exact List.mem_cons_of_mem _ h
    · rw [if_neg hk] at h
      rcases List.mem_cons.mp h with h1 | h1
      · exact h1 ▸ List.mem_cons_self _ _
      · exact List.mem_cons_of_mem _ (ih h1)

/-- Both outputs of the declared-order pass draw their entries from the
input map. -/
theorem orderLoop_sources :
    ∀ (order : List String) (m : List (String × ReadEntry)),
      (∀ e ∈ (orderLoop m order).1, ∃ k, (k, e) ∈ m)
      ∧ ∀ kv ∈ (orderLoop m order).2, kv ∈ m := by
  intro order
  induction order with
  | nil =>
    intro m
    exact ⟨fun e he => by simp [orderLoop] at he,
           fun kv hkv => by simpa [orderLoop] using hkv⟩
  | cons k ks ih =>
    intro m
    constructor
    · intro e he
      simp only [orderLoop] at he
      cases hl : alLookup m k with
      | none =>
        rw [hl] at he
        exact (ih m).1 e he
      | some e0 =>
        rw [hl] at he
        rcases List.mem_cons.mp he with h1 | h1
        · exact ⟨k, h1 ▸ alLookup_mem m k e0 hl⟩
        · obtain ⟨k1, hk1⟩ := (ih (alErase m k)).1 e h1
          exact ⟨k1, mem_alErase k _ m hk1⟩
    · intro kv hkv
      simp only [orderLoop] at hkv
      cases hl : alLookup m k with
      | none =>
        rw [hl] at hkv
        exact (ih m).2 kv hkv
      | some e0 =>
        rw [hl] at hkv
        exact mem_alErase k kv m ((ih (alErase m k)).2 kv hkv)

/-- C7 counterexample: with declared order `[AA:BB:CC:DD:EE:01]` and a remote
result also containing the undeclared `AA:BB:CC:DD:EE:99`, the read output is
exactly the declared entry — the remote-only entry is dropped by the
`stateMacs` filter, not appended after the declared-order entries. -/
theorem c7_remote_only_entry_dropped_counterexample :
    readMacAddresses ["AA:BB:CC:DD:EE:01"]
        [mkRemoteEntry "AA:BB:CC:DD:EE:01" "a",
         mkRemoteEntry "AA:BB:CC:DD:EE:99" "b"]
      = some [⟨"AA:BB:CC:DD:EE:01", "a", none⟩]
    ∧ (⟨"AA:BB:CC:DD:EE:99", "b", none⟩ : ReadEntry)
        ∉ [(⟨"AA:BB:CC:DD:EE:01", "a", none⟩ : ReadEntry)] :=
  ⟨rfl, by decide⟩

/-- C7 amended: entries present in the remote result but absent from the
`DeclaredOrder` sequence are filtered out before the reorder step rather
than appended: every entry of the read output carries a mac_address from
the declared order. -/
theorem c7_output_macs_subset_declared (declaredMacs : List String)
    (remote : List Jv) (l : List ReadEntry)
    (h : readMacAddresses declaredMacs remote = some l) :
    ∀ e ∈ l, e.mac ∈ declaredMacs := by
  intro e he
  unfold readMacAddresses at h
  cases hproc : processEntries declaredMacs remote with
  | none => rw [hproc] at h; simp at h
  | some filtered =>
    rw [hproc] at h
    simp only [Option.some.injEq] at h
    subst h
    have hin_sorted : e ∈ stableSort entryLess filtered := by
      rcases List.mem_append.mp he with h1 | h1
      · obtain ⟨k, hk⟩ := (orderLoop_sources declaredMacs
            (buildEntryMap (stableSort entryLess filtered))).1 e h1
        rcases mem_buildEntryMap_foldl (stableSort entryLess filtered) []
            (k, e) hk with h2 | h2
        · simp at h2
        · exact h2
      · simp only [List.mem_map] at h1
        obtain ⟨kv, hkv, rfl⟩ := h1
        have hkv' := (orderLoop_sources declaredMacs
            (buildEntryMap (stableSort entryLess filtered))).2 kv hkv
        rcases mem_buildEntryMap_foldl (stableSort entryLess filtered) []
            kv hkv' with h2 | h2
        · simp at h2
        · exact h2
    have hfil : e ∈ filtered := mem_stableSort entryLess e filtered hin_sorted
    have hcont := processEntries_mem declaredMacs remote filtered e hproc hfil
    simpa using hcont

/-- Witness for the amended C7 at the counterexample's concrete input. -/
theorem c7_output_macs_subset_declared_witness :
    (⟨"AA:BB:CC:DD:EE:01", "a", none⟩ : ReadEntry).mac
      ∈ ["AA:BB:CC:DD:EE:01"] :=
  c7_output_macs_subset_declared ["AA:BB:CC:DD:EE:01"]
    [mkRemoteEntry "AA:BB:CC:DD:EE:01" "a",
     mkRemoteEntry "AA:BB:CC:DD:EE:99" "b"]
    [⟨"AA:BB:CC:DD:EE:01", "a", none⟩] rfl
    ⟨"AA:BB:CC:DD:EE:01", "a", none⟩ (List.mem_cons_self _ _)

/-- C4: for two declared entries with distinct MAC keys whose remote read
returns the same two entries in reverse order, the read output restores the
original declared order `[mac1, mac2]`. -/
theorem c4_round_trip_declared_order (mac1 mac2 d1 d2 : String)
    (hne : mac1 ≠ mac2) :
    readMacAddresses [mac1, mac2]
        [mkRemoteEntry mac2 d2, mkRemoteEntry mac1 d1]
      = some [⟨mac1, d1, none⟩, ⟨mac2, d2, none⟩] := by
  have hne' : mac2 ≠ mac1 := Ne.symm hne
  have hn1 : readNormalizeEntry [mac1, mac2] (mkRemoteEntry mac1 d1)
      = EntryStep.got ⟨mac1, d1, none⟩ := by
    simp [readNormalizeEntry, mkRemoteEntry, isNull, asObj, asString, jget,
      List.lookup]
  have hn2 : readNormalizeEntry [mac1, mac2] (mkRemoteEntry mac2 d2)
      = EntryStep.got ⟨mac2, d2, none⟩ := by
    simp [readNormalizeEntry, mkRemoteEntry, isNull, asObj, asString, jget,
      List.lookup]
  have hproc : processEntries [mac1, mac2]
      [mkRemoteEntry mac2 d2, mkRemoteEntry mac1 d1]
      = some [⟨mac2, d2, none⟩, ⟨mac1, d1, none⟩] := by
    simp [processEntries, hn1, hn2]
  unfold readMacAddresses
  rw [hproc]
  by_cases hlt : mac1 < mac2
  · simp [stableSort, insertStable, entryLess, buildEntryMap, insertOrReplace,
      orderLoop, alLookup, alErase, hne, hne', hlt]
  · simp [stableSort, insertStable, entryLess, buildEntryMap, insertOrReplace,
      orderLoop, alLookup, alErase, hne, hne', hlt]

/-- Witness for C4 at concrete MAC addresses and descriptions. -/
theorem c4_round_trip_declared_order_witness :
    readMacAddresses ["AA:BB:CC:DD:EE:01", "AA:BB:CC:DD:EE:02"]
        [mkRemoteEntry "AA:BB:CC:DD:EE:02" "bar",
         mkRemoteEntry "AA:BB:CC:DD:EE:01" "foo"]
      = some [⟨"AA:BB:CC:DD:EE:01", "foo", none⟩,
              ⟨"AA:BB:CC:DD:EE:02", "bar", none⟩] :=
  c4_round_trip_declared_order "AA:BB:CC:DD:EE:01" "AA:BB:CC:DD:EE:02"
    "foo" "bar" (by decide)

end Portnox
